import Mathlib

/-!
Verification of the gateway-core request pipeline against its
natural-language specification.

The Go sources are shallowly embedded: Go byte strings become `List Char`
(the paths, prefixes and header values involved are ASCII), Go `int`
becomes `Int` (or `Nat` where the source only increments and resets),
Go `float64` rate/threshold arithmetic becomes `Rat`, `time.Time` and
`time.Duration` become `Int` (nanoseconds), and each stateful component
becomes a structure with explicit state-passing operations copied from
its methods.
-/

namespace Gateway

/-! ## Route matcher (src/internal/routing/match.go)

`MatchesPrefixBoundary` embeds `routing.MatchesPrefix`.  A Go string is
modelled as `List Char`; `strings.HasPrefix` is `List.isPrefixOf`,
`prefix[len(prefix)-1]` is `List.getLast?`, and `path[len(prefix)]` is
`List.get?` at that index. -/

def MatchesPrefixBoundary (path pfx : List Char) : Bool :=
  if pfx = [] then false
  else if ¬ pfx.isPrefixOf path then false
  else if path.length = pfx.length then true
  else if pfx.getLast? = some '/' then true
  else path.get? pfx.length = some '/'

/-- A prefix of the same length as the whole list is the whole list. -/
theorem isPrefixOf_length_eq {p l : List Char} (h : p.isPrefixOf l)
    (hlen : l.length = p.length) : l = p := by
  have hpre : p <+: l := List.isPrefixOf_iff_prefix.mp h
  have htake : p = List.take p.length l := List.prefix_iff_eq_take.mp hpre
  rw [htake, ← hlen, List.take_length]

/-- C5: `MatchesPrefix(path, prefix)` is true iff the prefix is non-empty,
`path` starts with `prefix`, and either `path = prefix`, or the prefix
ends with a slash, or the character of `path` at index `len(prefix)` is a
slash.  The empty prefix never matches. -/
theorem matchesPrefixBoundary_iff (path pfx : List Char) :
    MatchesPrefixBoundary path pfx = true ↔
      pfx ≠ [] ∧ pfx.isPrefixOf path = true ∧
        (path = pfx ∨ pfx.getLast? = some '/' ∨
          path.get? pfx.length = some '/') := by
  unfold MatchesPrefixBoundary
  by_cases hemp : pfx = []
  · simp [hemp]
  · simp only [hemp, if_false, ite_not]
    by_cases hpre : pfx.isPrefixOf path
    · simp only [hpre, if_true]
      by_cases hlen : path.length = pfx.length
      · have : path = pfx := isPrefixOf_length_eq hpre hlen
        simp [hlen, this, hemp]
      · have hne : path ≠ pfx := fun h => hlen (by rw [h])
        by_cases hsl : pfx.getLast? = some '/'
        · simp [hlen, hsl, hemp, hpre]
        · simp [hlen, hsl, hemp, hpre, hne]
    · simp [hpre]

/-! ## Reverse-proxy retry loop (src/unnamed/part_015, `Router.ServeHTTP`)

The loop body is abstracted over the sequence of upstream responses: each
call of `proxy.ServeHTTP` (one backend contact) consumes the next status
from `stream`.  `maxAttempts = RetryAttempts + 1`, clamped to at least 1,
exactly as in the source.  On a non-final attempt a retryable status
(502/503/504, `isRetryable`) continues the loop; any other status is
replayed from the buffer and the loop breaks.  The final attempt always
breaks.  Context cancellation is modelled as absent (the claim quantifies
over upstream responses only). -/

def isRetryable (status : Nat) : Bool :=
  status = 502 ∨ status = 503 ∨ status = 504

def maxAttemptsOf (retryAttempts : Int) : Nat :=
  (max 1 (retryAttempts + 1)).toNat

/-- Result of the retry loop: how many times the backend was contacted and
which status was delivered to the client. -/
structure RetryResult where
  hits : Nat
  clientStatus : Nat
  deriving Repr, DecidableEq

/-- One pass of the retry loop starting at backend response index `i` with
`remaining` attempts left (`remaining ≥ 1` on entry, mirroring the `for`
loop bounds). -/
def retryLoopAux (stream : Nat → Nat) (i : Nat) : Nat → RetryResult
  | 0 => ⟨0, 200⟩
  | 1 => ⟨1, stream i⟩
  | n + 2 =>
    if isRetryable (stream i) then
      let r := retryLoopAux stream (i + 1) (n + 1)
      ⟨r.hits + 1, r.clientStatus⟩
    else ⟨1, stream i⟩

/-- `Router.ServeHTTP`'s retry loop for a route with the given
`retry_attempts`, against the upstream response sequence `stream`. -/
def serveRetry (stream : Nat → Nat) (retryAttempts : Int) : RetryResult :=
  retryLoopAux stream 0 (maxAttemptsOf retryAttempts)

/-- Number of retryable statuses among `stream i, stream (i+1), ...` before
the first non-retryable one, looking at most `n` responses ahead. -/
def leadRetryable (stream : Nat → Nat) (i : Nat) : Nat → Nat
  | 0 => 0
  | n + 1 =>
    if isRetryable (stream i) then leadRetryable stream (i + 1) n + 1 else 0

theorem retryLoopAux_hits (stream : Nat → Nat) :
    ∀ n i, (retryLoopAux stream i (n + 1)).hits =
      1 + leadRetryable stream i n := by
  intro n
  induction n with
  | zero => intro i; simp [retryLoopAux, leadRetryable]
  | succ m ih =>
    intro i
    by_cases h : isRetryable (stream i)
    · simp only [retryLoopAux, h, if_true, leadRetryable, ih (i + 1)]
      omega
    · simp [retryLoopAux, h, leadRetryable]

/-- C1: the retry loop contacts the backend exactly `1 + k` times, where
`k` is the number of retryable statuses (502/503/504) returned on
non-final attempts before the first non-retryable response.  In
particular a request whose buffered non-final response is replayed
(`stream 0` non-retryable) hits the backend exactly once. -/
theorem serveRetry_backend_hits (stream : Nat → Nat) (retryAttempts : Int) :
    (serveRetry stream retryAttempts).hits =
      1 + leadRetryable stream 0 (maxAttemptsOf retryAttempts - 1) := by
  have h1 : 1 ≤ maxAttemptsOf retryAttempts := by
    unfold maxAttemptsOf
    omega
  obtain ⟨n, hn⟩ : ∃ n, maxAttemptsOf retryAttempts = n + 1 :=
    ⟨maxAttemptsOf retryAttempts - 1, by omega⟩
  unfold serveRetry
  rw [hn]
  simpa using retryLoopAux_hits stream n 0

/-! ## Failure-rate circuit breaker (src/unnamed/part_022)

State and methods of `FailureRateBreaker` embedded field by field.  Go
`time.Time`/`time.Duration` are `Int` nanoseconds and `time.Since(t)` at
instant `now` is `now - t`; `float64` thresholds and `failureRate` are
`Rat`.  `failures` is a Go `int` that is decremented, so it is `Int`;
`head` and `count` are only incremented, reset and reduced mod the window
size, so they are `Nat`.  Metrics emission and logging carry no state. -/

inductive BState where
  | StateClosed
  | StateOpen
  | StateHalfOpen
  deriving Repr, DecidableEq

structure FailureRateBreaker where
  state : BState
  window : List Bool
  head : Nat
  count : Nat
  failures : Int
  windowSize : Nat
  failureThreshold : Rat
  resetTimeout : Int
  halfOpenMax : Int
  halfOpenSuccess : Int
  openedAt : Int
  deriving Repr, DecidableEq

def NewFailureRateBreaker (windowSize : Nat) (failureThreshold : Rat)
    (resetTimeout : Int) (halfOpenMax : Int) : FailureRateBreaker :=
  { state := .StateClosed
    window := List.replicate windowSize false
    head := 0
    count := 0
    failures := 0
    windowSize := windowSize
    failureThreshold := failureThreshold
    resetTimeout := resetTimeout
    halfOpenMax := halfOpenMax
    halfOpenSuccess := 0
    openedAt := 0 }

/-- `transitionTo` with the current instant (used when entering `Open`). -/
def transitionTo (b : FailureRateBreaker) (now : Int) (newState : BState) :
    FailureRateBreaker :=
  if b.state = newState then b
  else
    let b1 := { b with state := newState }
    match newState with
    | .StateClosed =>
      { b1 with head := 0, count := 0, failures := 0, halfOpenSuccess := 0 }
    | .StateOpen => { b1 with openedAt := now, halfOpenSuccess := 0 }
    | .StateHalfOpen => { b1 with halfOpenSuccess := 0 }

def recordOutcome (b : FailureRateBreaker) (failed : Bool) :
    FailureRateBreaker :=
  let b1 :=
    if b.count = b.windowSize then
      if b.window.getD b.head false then { b with failures := b.failures - 1 }
      else b
    else { b with count := b.count + 1 }
  let b2 := { b1 with window := b1.window.set b1.head failed }
  let b3 := if failed then { b2 with failures := b2.failures + 1 } else b2
  { b3 with head := (b3.head + 1) % b3.windowSize }

def failureRate (b : FailureRateBreaker) : Rat :=
  if b.count = 0 then 0 else (b.failures : Rat) / (b.count : Rat)

def allow (b : FailureRateBreaker) (now : Int) : Bool × FailureRateBreaker :=
  match b.state with
  | .StateClosed => (true, b)
  | .StateOpen =>
    if now - b.openedAt ≥ b.resetTimeout then
      (true, transitionTo b now .StateHalfOpen)
    else (false, b)
  | .StateHalfOpen => (true, b)

def recordSuccess (b : FailureRateBreaker) (now : Int) : FailureRateBreaker :=
  match b.state with
  | .StateClosed => recordOutcome b false
  | .StateHalfOpen =>
    let b1 := { b with halfOpenSuccess := b.halfOpenSuccess + 1 }
    if b1.halfOpenSuccess ≥ b1.halfOpenMax then transitionTo b1 now .StateClosed
    else b1
  | .StateOpen => b

def recordFailure (b : FailureRateBreaker) (now : Int) : FailureRateBreaker :=
  match b.state with
  | .StateClosed =>
    let b1 := recordOutcome b true
    if b1.count ≥ b1.windowSize ∧ failureRate b1 ≥ b1.failureThreshold then
      transitionTo b1 now .StateOpen
    else b1
  | .StateHalfOpen => transitionTo b now .StateOpen
  | .StateOpen => b

def breakerReset (b : FailureRateBreaker) (now : Int) : FailureRateBreaker :=
  transitionTo b now .StateClosed

theorem recordOutcome_state (b : FailureRateBreaker) (f : Bool) :
    (recordOutcome b f).state = b.state := by
  unfold recordOutcome
  repeat' split
  all_goals rfl

theorem recordOutcome_windowSize (b : FailureRateBreaker) (f : Bool) :
    (recordOutcome b f).windowSize = b.windowSize := by
  unfold recordOutcome
  repeat' split
  all_goals rfl

theorem recordOutcome_threshold (b : FailureRateBreaker) (f : Bool) :
    (recordOutcome b f).failureThreshold = b.failureThreshold := by
  unfold recordOutcome
  repeat' split
  all_goals rfl

theorem recordOutcome_count (b : FailureRateBreaker) (f : Bool) :
    (recordOutcome b f).count =
      if b.count = b.windowSize then b.count else b.count + 1 := by
  unfold recordOutcome
  repeat' split
  all_goals simp_all

/-- The conclusion of claim C3, as a predicate on a breaker state and the
current instant: the declared `Closed`/`Open`/`HalfOpen` behaviour of
`RecordFailure`, `RecordSuccess` and `Allow`. -/
def C3Spec (b : FailureRateBreaker) (now : Int) : Prop :=
  (b.state = .StateClosed →
    (((recordFailure b now).state = .StateOpen ↔
        (recordOutcome b true).count = b.windowSize ∧
          failureRate (recordOutcome b true) ≥ b.failureThreshold) ∧
      (recordSuccess b now).state = .StateClosed)) ∧
  (b.state = .StateOpen →
    ((now - b.openedAt < b.resetTimeout → allow b now = (false, b)) ∧
      (b.resetTimeout ≤ now - b.openedAt →
        (allow b now).1 = true ∧ (allow b now).2.state = .StateHalfOpen))) ∧
  (b.state = .StateHalfOpen →
    (((recordSuccess b now).state = .StateClosed ↔
        b.halfOpenMax ≤ b.halfOpenSuccess + 1) ∧
      (b.halfOpenMax ≤ b.halfOpenSuccess + 1 →
        (recordSuccess b now).count = 0 ∧ (recordSuccess b now).failures = 0) ∧
      (b.halfOpenSuccess + 1 < b.halfOpenMax →
        (recordSuccess b now).state = .StateHalfOpen ∧
          (recordSuccess b now).halfOpenSuccess = b.halfOpenSuccess + 1) ∧
      (recordFailure b now).state = .StateOpen ∧
      (recordFailure b now).openedAt = now))

/-- C3: the failure-rate breaker follows its declared state machine.  In
`Closed`, `RecordFailure` trips to `Open` exactly when, after the new
outcome is recorded, the window is full and the failure ratio reaches the
threshold, and `RecordSuccess` never leaves `Closed`; in `Open`, `Allow`
refuses before `reset_timeout` and otherwise moves to `HalfOpen` and
permits; in `HalfOpen`, the `half_open_max`-th success closes the breaker
(resetting the window) and any failure re-opens it, stamping
`opened_at`. -/
theorem breaker_state_machine (b : FailureRateBreaker) (now : Int)
    (_hW : 1 ≤ b.windowSize) (hcount : b.count ≤ b.windowSize) :
    C3Spec b now := by
  refine ⟨fun hs => ⟨?_, ?_⟩, fun hs => ⟨?_, ?_⟩, fun hs => ⟨?_, ?_, ?_, ?_, ?_⟩⟩
  · -- Closed, RecordFailure trip condition
    have hcnt : (recordOutcome b true).count ≤ b.windowSize := by
      rw [recordOutcome_count]
      split <;> omega
    have hws := recordOutcome_windowSize b true
    have hth := recordOutcome_threshold b true
    have hst := recordOutcome_state b true
    unfold recordFailure
    rw [hs]
    simp only []
    by_cases hc : (recordOutcome b true).count ≥ (recordOutcome b true).windowSize ∧
        failureRate (recordOutcome b true) ≥ (recordOutcome b true).failureThreshold
    · simp only [hc, if_true]
      constructor
      · intro _
        refine ⟨?_, ?_⟩
        · omega
        · rw [← hth]; exact hc.2
      · intro _
        unfold transitionTo
        rw [hst, hs]
        simp
    · simp only [hc, if_false]
      rw [hst, hs]
      constructor
      · intro h; cases h
      · intro hcl
        exact absurd ⟨by omega, by rw [hth]; exact hcl.2⟩ hc
  · -- Closed, RecordSuccess stays Closed
    unfold recordSuccess
    rw [hs]
    simp only []
    rw [recordOutcome_state, hs]
  · -- Open, Allow before reset_timeout
    intro hlt
    unfold allow
    rw [hs]
    simp only []
    rw [if_neg (by omega)]
  · -- Open, Allow after reset_timeout
    intro hge
    unfold allow
    rw [hs]
    simp only []
    rw [if_pos (by omega)]
    refine ⟨rfl, ?_⟩
    unfold transitionTo
    rw [hs]
    simp
  · -- HalfOpen, RecordSuccess closes iff the max is reached
    unfold recordSuccess
    rw [hs]
    simp only []
    by_cases hmax : b.halfOpenSuccess + 1 ≥ b.halfOpenMax
    · rw [if_pos hmax]
      unfold transitionTo
      simp only [hs]
      simp [hmax]
    · rw [if_neg hmax]
      simp only [hs]
      constructor
      · intro h; cases h
      · intro h; omega
  · -- HalfOpen, reaching the max resets the window
    intro hmax
    unfold recordSuccess
    rw [hs]
    simp only []
    rw [if_pos (by simpa using hmax)]
    unfold transitionTo
    simp [hs]
  · -- HalfOpen, below the max stays HalfOpen and counts the success
    intro hlt
    unfold recordSuccess
    rw [hs]
    simp only []
    rw [if_neg (by simp; omega)]
    exact ⟨rfl, rfl⟩
  · -- HalfOpen, RecordFailure re-opens
    unfold recordFailure
    rw [hs]
    simp only []
    unfold transitionTo
    rw [hs]
    simp
  · -- HalfOpen, RecordFailure stamps opened_at
    unfold recordFailure
    rw [hs]
    simp only []
    unfold transitionTo
    rw [hs]
    simp

/-- Witness for C3 at a freshly constructed breaker observed at instant 5. -/
theorem breaker_state_machine_witness :
    1 ≤ (NewFailureRateBreaker 4 (1 / 2) 30 2).windowSize ∧
      (NewFailureRateBreaker 4 (1 / 2) 30 2).count ≤
        (NewFailureRateBreaker 4 (1 / 2) 30 2).windowSize ∧
      C3Spec (NewFailureRateBreaker 4 (1 / 2) 30 2) 5 :=
  ⟨by decide, by decide, breaker_state_machine _ 5 (by decide) (by decide)⟩

/-! ## Window invariant (claim C6)

An operation sequence on the breaker, and the invariant
`0 ≤ failures ≤ count ≤ window_size`.  The induction carries a stronger
invariant: `failures` equals the number of failed outcomes stored in the
active region of the ring buffer. -/

inductive BreakerOp where
  | allowOp (now : Int)
  | successOp (now : Int)
  | failureOp (now : Int)
  | resetOp (now : Int)
  deriving Repr, DecidableEq

def applyOp (b : FailureRateBreaker) : BreakerOp → FailureRateBreaker
  | .allowOp now => (allow b now).2
  | .successOp now => recordSuccess b now
  | .failureOp now => recordFailure b now
  | .resetOp now => breakerReset b now

def runOps (b : FailureRateBreaker) (ops : List BreakerOp) :
    FailureRateBreaker :=
  ops.foldl applyOp b

/-- Number of `true` entries of a window, as a Go `int`. -/
def countTrue : List Bool → Int
  | [] => 0
  | x :: t => (if x then 1 else 0) + countTrue t

theorem countTrue_nonneg (l : List Bool) : 0 ≤ countTrue l := by
  induction l with
  | nil => simp [countTrue]
  | cons x t ih => unfold countTrue; split <;> omega

theorem countTrue_cons (x : Bool) (t : List Bool) :
    countTrue (x :: t) = (if x then 1 else 0) + countTrue t := rfl

theorem countTrue_le_length (l : List Bool) :
    countTrue l ≤ (l.length : Int) := by
  induction l with
  | nil => simp [countTrue]
  | cons x t ih =>
    rw [countTrue_cons, List.length_cons]
    push_cast
    split <;> omega

theorem countTrue_append (l₁ l₂ : List Bool) :
    countTrue (l₁ ++ l₂) = countTrue l₁ + countTrue l₂ := by
  induction l₁ with
  | nil => simp [countTrue]
  | cons x t ih =>
    rw [List.cons_append, countTrue_cons, countTrue_cons, ih]
    ring

theorem countTrue_set (l : List Bool) (v : Bool) :
    ∀ i, i < l.length →
      countTrue (l.set i v) =
        countTrue l - (if l.getD i false then 1 else 0) +
          (if v then 1 else 0) := by
  induction l with
  | nil => intro i h; simp at h
  | cons x t ih =>
    intro i h
    match i with
    | 0 =>
      show countTrue (v :: t) = _
      rw [countTrue_cons, countTrue_cons]
      have hx : (x :: t).getD 0 false = x := rfl
      rw [hx]
      ring
    | j + 1 =>
      have hj : j < t.length := by simpa using h
      show countTrue (x :: t.set j v) = _
      rw [countTrue_cons, countTrue_cons, ih j hj]
      have hx : (x :: t).getD (j + 1) false = t.getD j false := rfl
      rw [hx]
      ring

theorem take_set_succ (l : List Bool) (v : Bool) :
    ∀ i, i < l.length → (l.set i v).take (i + 1) = l.take i ++ [v] := by
  induction l with
  | nil => intro i h; simp at h
  | cons x t ih =>
    intro i h
    match i with
    | 0 => simp [List.set]
    | j + 1 =>
      have hj : j < t.length := by simpa using h
      show x :: (t.set j v).take (j + 1) = x :: (t.take j ++ [v])
      rw [ih j hj]

/-- The region of the ring buffer that currently holds recorded
outcomes. -/
def activeWindow (b : FailureRateBreaker) : List Bool :=
  if b.count = b.windowSize then b.window else b.window.take b.count

/-- Strengthened ring-buffer invariant of `FailureRateBreaker`. -/
def SInv (b : FailureRateBreaker) : Prop :=
  1 ≤ b.windowSize ∧
  b.window.length = b.windowSize ∧
  b.head < b.windowSize ∧
  b.count ≤ b.windowSize ∧
  (b.count < b.windowSize → b.head = b.count) ∧
  b.failures = countTrue (activeWindow b)

theorem SInv_new (W : Nat) (th : Rat) (rt hm : Int) (hW : 1 ≤ W) :
    SInv (NewFailureRateBreaker W th rt hm) := by
  refine ⟨hW, by simp [NewFailureRateBreaker], by simp [NewFailureRateBreaker]; omega,
    by simp [NewFailureRateBreaker], fun _ => rfl, ?_⟩
  simp only [NewFailureRateBreaker, activeWindow]
  rw [if_neg (by omega)]
  simp [countTrue]

/-- Closed form of `recordOutcome`: the evict-then-write ring update. -/
theorem recordOutcome_eq (b : FailureRateBreaker) (f : Bool) :
    recordOutcome b f =
      if b.count = b.windowSize then
        { b with
          failures := b.failures - (if b.window.getD b.head false then 1 else 0)
            + (if f then 1 else 0)
          window := b.window.set b.head f
          head := (b.head + 1) % b.windowSize }
      else
        { b with
          count := b.count + 1
          failures := b.failures + (if f then 1 else 0)
          window := b.window.set b.head f
          head := (b.head + 1) % b.windowSize } := by
  unfold recordOutcome
  repeat' split
  all_goals simp_all

theorem activeWindow_length (b : FailureRateBreaker)
    (hlen : b.window.length = b.windowSize) (hcnt : b.count ≤ b.windowSize) :
    (activeWindow b).length = b.count := by
  unfold activeWindow
  split
  · omega
  · rw [List.length_take]; omega

theorem SInv_recordOutcome (b : FailureRateBreaker) (f : Bool) (h : SInv b) :
    SInv (recordOutcome b f) := by
  obtain ⟨hW, hlen, hhead, hcnt, hhc, hfail⟩ := h
  have hlt : b.head < b.window.length := by omega
  rw [recordOutcome_eq]
  by_cases hc : b.count = b.windowSize
  · rw [if_pos hc]
    refine ⟨hW, by dsimp only; rw [List.length_set]; exact hlen,
      Nat.mod_lt _ (by omega), hcnt, ?_, ?_⟩
    · intro hx
      dsimp only at hx
      omega
    show b.failures - _ + _ = countTrue (activeWindow _)
    unfold activeWindow
    dsimp only
    rw [if_pos hc, countTrue_set b.window f b.head hlt]
    have hact : activeWindow b = b.window := by
      unfold activeWindow; rw [if_pos hc]
    rw [hfail, hact]
  · rw [if_neg hc]
    have hclt : b.count < b.windowSize := by omega
    have hhc2 : b.head = b.count := hhc hclt
    have hcl : b.count < b.window.length := by omega
    refine ⟨hW, by dsimp only; rw [List.length_set]; exact hlen,
      Nat.mod_lt _ (by omega), by dsimp only; omega, ?_, ?_⟩
    · intro hx
      dsimp only at hx ⊢
      have : b.count + 1 < b.windowSize := hx
      rw [hhc2, Nat.mod_eq_of_lt (by omega)]
    · show b.failures + _ = countTrue (activeWindow _)
      have hact : activeWindow b = b.window.take b.count := by
        unfold activeWindow; rw [if_neg hc]
      have htake : (b.window.set b.head f).take (b.count + 1) =
          b.window.take b.count ++ [f] := by
        rw [hhc2]; exact take_set_succ b.window f b.count hcl
      unfold activeWindow
      dsimp only
      by_cases hc1 : b.count + 1 = b.windowSize
      · rw [if_pos hc1]
        have hfull : (b.window.set b.head f).take (b.count + 1) =
            b.window.set b.head f := by
          apply List.take_of_length_le
          rw [List.length_set, hlen]; omega
        rw [← hfull, htake, countTrue_append, hfail, hact]
        simp [countTrue]
      · rw [if_neg hc1, htake, countTrue_append, hfail, hact]
        simp [countTrue]

theorem SInv_transitionTo (b : FailureRateBreaker) (now : Int) (ns : BState)
    (h : SInv b) : SInv (transitionTo b now ns) := by
  obtain ⟨hW, hlen, hhead, hcnt, hhc, hfail⟩ := h
  unfold transitionTo
  split
  · exact ⟨hW, hlen, hhead, hcnt, hhc, hfail⟩
  · cases ns <;> dsimp only
    · refine ⟨hW, hlen, by dsimp only; omega, by dsimp only; omega,
        fun _ => rfl, ?_⟩
      unfold activeWindow
      dsimp only
      rw [if_neg (by omega)]
      simp [countTrue]
    · exact ⟨hW, hlen, hhead, hcnt, hhc, hfail⟩
    · exact ⟨hW, hlen, hhead, hcnt, hhc, hfail⟩

theorem SInv_applyOp (b : FailureRateBreaker) (op : BreakerOp) (h : SInv b) :
    SInv (applyOp b op) := by
  cases op with
  | allowOp now =>
    show SInv (allow b now).2
    unfold allow
    cases b.state <;> dsimp only
    · exact h
    · split
      · exact SInv_transitionTo b now _ h
      · exact h
    · exact h
  | successOp now =>
    show SInv (recordSuccess b now)
    unfold recordSuccess
    cases b.state <;> dsimp only
    · exact SInv_recordOutcome b false h
    · exact h
    · split
      · apply SInv_transitionTo
        obtain ⟨hW, hlen, hhead, hcnt, hhc, hfail⟩ := h
        exact ⟨hW, hlen, hhead, hcnt, hhc, hfail⟩
      · obtain ⟨hW, hlen, hhead, hcnt, hhc, hfail⟩ := h
        exact ⟨hW, hlen, hhead, hcnt, hhc, hfail⟩
  | failureOp now =>
    show SInv (recordFailure b now)
    unfold recordFailure
    cases b.state <;> dsimp only
    · split
      · exact SInv_transitionTo _ now _ (SInv_recordOutcome b true h)
      · exact SInv_recordOutcome b true h
    · exact h
    · exact SInv_transitionTo b now _ h
  | resetOp now =>
    exact SInv_transitionTo b now _ h

theorem transitionTo_windowSize (b : FailureRateBreaker) (now : Int)
    (ns : BState) : (transitionTo b now ns).windowSize = b.windowSize := by
  unfold transitionTo
  split
  · rfl
  · cases ns <;> rfl

theorem applyOp_windowSize (b : FailureRateBreaker) (op : BreakerOp) :
    (applyOp b op).windowSize = b.windowSize := by
  cases op with
  | allowOp now =>
    show (allow b now).2.windowSize = _
    unfold allow
    cases b.state
    · rfl
    · dsimp only
      split
      · exact transitionTo_windowSize b now _
      · rfl
    · rfl
  | successOp now =>
    show (recordSuccess b now).windowSize = _
    unfold recordSuccess
    cases b.state
    · exact recordOutcome_windowSize b false
    · rfl
    · dsimp only
      split
      · rw [transitionTo_windowSize]
      · rfl
  | failureOp now =>
    show (recordFailure b now).windowSize = _
    unfold recordFailure
    cases b.state
    · dsimp only
      split
      · rw [transitionTo_windowSize, recordOutcome_windowSize]
      · exact recordOutcome_windowSize b true
    · rfl
    · exact transitionTo_windowSize b now _
  | resetOp now => exact transitionTo_windowSize b now _

theorem SInv_runOps (ops : List BreakerOp) :
    ∀ b : FailureRateBreaker, SInv b → SInv (runOps b ops) := by
  induction ops with
  | nil => intro b h; exact h
  | cons op rest ih =>
    intro b h
    show SInv (runOps (applyOp b op) rest)
    exact ih _ (SInv_applyOp b op h)

theorem runOps_windowSize (ops : List BreakerOp) :
    ∀ b : FailureRateBreaker, (runOps b ops).windowSize = b.windowSize := by
  induction ops with
  | nil => intro b; rfl
  | cons op rest ih =>
    intro b
    show (runOps (applyOp b op) rest).windowSize = _
    rw [ih, applyOp_windowSize]

/-- C6: after any finite sequence of `Allow` / `RecordSuccess` /
`RecordFailure` / `Reset` operations on a breaker constructed with
window size `W ≥ 1`, the invariant `0 ≤ failures ≤ count ≤ W` holds. -/
theorem breaker_window_invariant (W : Nat) (th : Rat) (rt hm : Int)
    (ops : List BreakerOp) (hW : 1 ≤ W) :
    0 ≤ (runOps (NewFailureRateBreaker W th rt hm) ops).failures ∧
      (runOps (NewFailureRateBreaker W th rt hm) ops).failures ≤
        ((runOps (NewFailureRateBreaker W th rt hm) ops).count : Int) ∧
      (runOps (NewFailureRateBreaker W th rt hm) ops).count ≤ W := by
  have h := SInv_runOps ops _ (SInv_new W th rt hm hW)
  have hws : (runOps (NewFailureRateBreaker W th rt hm) ops).windowSize = W :=
    runOps_windowSize ops _
  obtain ⟨h1, hlen, hhead, hcnt, hhc, hfail⟩ := h
  have hnn := countTrue_nonneg (activeWindow (runOps (NewFailureRateBreaker W th rt hm) ops))
  have hle := countTrue_le_length (activeWindow (runOps (NewFailureRateBreaker W th rt hm) ops))
  have hal := activeWindow_length _ hlen hcnt
  refine ⟨by omega, ?_, by omega⟩
  rw [hfail]
  calc countTrue _ ≤ _ := hle
    _ = _ := by rw [hal]

/-- Witness for C6: a concrete operation sequence on a window of size 2. -/
theorem breaker_window_invariant_witness :
    1 ≤ 2 ∧
      (0 ≤ (runOps (NewFailureRateBreaker 2 (1 / 2) 10 1)
          [.failureOp 0, .failureOp 1, .allowOp 12, .successOp 13,
            .failureOp 14, .resetOp 15, .successOp 16]).failures ∧
        (runOps (NewFailureRateBreaker 2 (1 / 2) 10 1)
          [.failureOp 0, .failureOp 1, .allowOp 12, .successOp 13,
            .failureOp 14, .resetOp 15, .successOp 16]).failures ≤
          ((runOps (NewFailureRateBreaker 2 (1 / 2) 10 1)
            [.failureOp 0, .failureOp 1, .allowOp 12, .successOp 13,
              .failureOp 14, .resetOp 15, .successOp 16]).count : Int) ∧
        (runOps (NewFailureRateBreaker 2 (1 / 2) 10 1)
          [.failureOp 0, .failureOp 1, .allowOp 12, .successOp 13,
            .failureOp 14, .resetOp 15, .successOp 16]).count ≤ 2) :=
  ⟨by decide, breaker_window_invariant 2 (1 / 2) 10 1 _ (by decide)⟩

/-! ## Global deadline middleware (src/unnamed/part_012)

The handler goroutine writes through `deadlineWriter` (each `Write` /
`WriteHeader` does `claimed.Store(true)` and then writes to the
underlying client writer); the deadline goroutine, when the context fires
before the handler closes `done`, runs `tryClaimWrite`
(`claimed.CompareAndSwap(false, true)`) and, if it wins, writes the 504
body to the underlying writer.  Atomic actions of the two goroutines are
interleaved by a schedule: `true` schedules one handler write, `false`
schedules the deadline goroutine's next atomic step (first the CAS, then
the conditional 504 write).  Schedules with fewer than two `false` steps
model runs where the handler finished first and the deadline side never
ran (or was preempted forever); extra `false` steps are no-ops. -/

inductive WriteEvent where
  | handlerByte
  | deadline504
  deriving Repr, DecidableEq

structure DeadlineSt where
  claimed : Bool
  written : List WriteEvent
  won : Bool
  dphase : Nat
  deriving Repr, DecidableEq

def initDeadlineSt : DeadlineSt :=
  { claimed := false, written := [], won := false, dphase := 0 }

/-- One handler write through `deadlineWriter.Write` / `WriteHeader`:
`claimed.Store(true)` followed by the underlying client write. -/
def handlerStep (s : DeadlineSt) : DeadlineSt :=
  { s with claimed := true, written := s.written ++ [.handlerByte] }

/-- One atomic step of the deadline goroutine: first `tryClaimWrite`
(compare-and-swap on `claimed`), then — only if the CAS won — the 504
response write. -/
def deadlineStep (s : DeadlineSt) : DeadlineSt :=
  match s.dphase with
  | 0 => { s with claimed := true, won := !s.claimed, dphase := 1 }
  | 1 =>
    { s with
      dphase := 2
      written := if s.won then s.written ++ [.deadline504] else s.written }
  | _ => s

def schedStep (s : DeadlineSt) : Bool → DeadlineSt
  | true => handlerStep s
  | false => deadlineStep s

def execSched (sched : List Bool) : DeadlineSt :=
  sched.foldl schedStep initDeadlineSt

/-- C2 counterexample: under the schedule "deadline claims, deadline
writes the 504, handler writes", the client receives both the 504 and
handler bytes — `WriteHeader`/`Write` store the flag but never check it,
so a handler racing past a successful deadline claim still writes. -/
theorem deadline_both_written :
    WriteEvent.deadline504 ∈ (execSched [false, false, true]).written ∧
      WriteEvent.handlerByte ∈ (execSched [false, false, true]).written := by
  decide

theorem foldl_schedStep_phase2 (sched : List Bool) :
    ∀ s : DeadlineSt, s.dphase = 2 →
      (sched.foldl schedStep s).written.count .deadline504 =
        s.written.count .deadline504 := by
  induction sched with
  | nil => intro s _; rfl
  | cons c rest ih =>
    intro s hp
    cases c with
    | true =>
      show (rest.foldl schedStep (handlerStep s)).written.count _ = _
      rw [ih (handlerStep s) hp]
      simp [handlerStep]
    | false =>
      have hd : deadlineStep s = s := by
        unfold deadlineStep; rw [hp]
      show (rest.foldl schedStep (deadlineStep s)).written.count _ = _
      rw [hd]
      exact ih s hp

theorem foldl_schedStep_lost (sched : List Bool) :
    ∀ s : DeadlineSt, s.won = false → s.claimed = true →
      (sched.foldl schedStep s).written.count .deadline504 =
        s.written.count .deadline504 := by
  induction sched with
  | nil => intro s _ _; rfl
  | cons c rest ih =>
    intro s hw hc
    cases c with
    | true =>
      show (rest.foldl schedStep (handlerStep s)).written.count _ = _
      rw [ih (handlerStep s) hw rfl]
      simp [handlerStep]
    | false =>
      show (rest.foldl schedStep (deadlineStep s)).written.count _ = _
      match hp : s.dphase with
      | 0 =>
        have h1 : (deadlineStep s).won = false := by
          unfold deadlineStep; rw [hp]; dsimp only; simp [hc]
        have h1c : (deadlineStep s).claimed = true := by
          unfold deadlineStep; rw [hp]
        have h1w : (deadlineStep s).written = s.written := by
          unfold deadlineStep; rw [hp]
        rw [ih (deadlineStep s) h1 h1c, h1w]
      | 1 =>
        have h2 : (deadlineStep s).dphase = 2 := by
          unfold deadlineStep; rw [hp]
        have h3 : (deadlineStep s).written = s.written := by
          unfold deadlineStep; rw [hp]; dsimp only; simp [hw]
        rw [foldl_schedStep_phase2 rest _ h2, h3]
      | n + 2 =>
        have hd : deadlineStep s = s := by
          unfold deadlineStep; rw [hp]; rfl
        rw [hd]
        exact ih s hw hc

theorem foldl_schedStep_phase1 (sched : List Bool) :
    ∀ s : DeadlineSt, s.dphase = 1 →
      (sched.foldl schedStep s).written.count .deadline504 ≤
        s.written.count .deadline504 + 1 := by
  induction sched with
  | nil =>
    intro s _
    show s.written.count _ ≤ _
    omega
  | cons c rest ih =>
    intro s hp
    cases c with
    | true =>
      show (rest.foldl schedStep (handlerStep s)).written.count _ ≤ _
      have h1 := ih (handlerStep s) hp
      have h2 : (handlerStep s).written.count WriteEvent.deadline504 =
          s.written.count WriteEvent.deadline504 := by
        simp [handlerStep]
      omega
    | false =>
      show (rest.foldl schedStep (deadlineStep s)).written.count _ ≤ _
      have h2 : (deadlineStep s).dphase = 2 := by
        unfold deadlineStep; rw [hp]
      rw [foldl_schedStep_phase2 rest _ h2]
      have h3 : (deadlineStep s).written.count WriteEvent.deadline504 ≤
          s.written.count WriteEvent.deadline504 + 1 := by
        unfold deadlineStep
        rw [hp]
        dsimp only
        by_cases hw : s.won = true <;> simp [hw, List.count_append]
      exact h3

/-- C2 amended: in every interleaving the deadline side writes at most
one 504, and it writes one only when no handler byte had been committed
before its compare-and-swap claim (no `true` precedes the first `false`
of the schedule).  The converse direction — a handler writing after a
successful deadline claim — is not prevented
(`deadline_both_written`). -/
theorem deadline_claim_exclusivity (sched : List Bool) :
    (execSched sched).written.count .deadline504 ≤ 1 ∧
      (WriteEvent.deadline504 ∈ (execSched sched).written →
        sched.takeWhile (· = true) = []) := by
  cases sched with
  | nil => exact ⟨by decide, by intro h; cases h⟩
  | cons c rest =>
    cases c with
    | true =>
      have hkey : (execSched (true :: rest)).written.count
          WriteEvent.deadline504 = 0 := by
        show (rest.foldl schedStep (handlerStep initDeadlineSt)).written.count _ = _
        rw [foldl_schedStep_lost rest (handlerStep initDeadlineSt) rfl rfl]
        decide
      constructor
      · omega
      · intro hmem
        have hpos : 0 < (execSched (true :: rest)).written.count
            WriteEvent.deadline504 := List.count_pos_iff.mpr hmem
        omega
    | false =>
      constructor
      · show (rest.foldl schedStep (deadlineStep initDeadlineSt)).written.count _ ≤ 1
        have h1 := foldl_schedStep_phase1 rest (deadlineStep initDeadlineSt) rfl
        have h0 : (deadlineStep initDeadlineSt).written.count
            WriteEvent.deadline504 = 0 := by decide
        omega
      · intro _
        rfl

/-! ## Deadline middleware disabled path (claim C10)

`Deadline(timeout)` returns the wrapping middleware only when
`timeout > 0`; otherwise it returns `next` itself.  The disabled
semantics `execPlain` runs the handler directly against the client
writer: no `deadlineWriter`, no claim flag, no deadline goroutine, so
`false` entries of the schedule do nothing. -/

def plainStep (s : DeadlineSt) : Bool → DeadlineSt
  | true => { s with written := s.written ++ [.handlerByte] }
  | false => s

/-- The handler called directly (no deadline layer). -/
def execPlain (sched : List Bool) : DeadlineSt :=
  sched.foldl plainStep initDeadlineSt

/-- `middleware.Deadline`: with `timeout ≤ 0` the middleware returns the
inner handler unchanged; with a positive timeout it runs the race of
handler and deadline goroutines. -/
def deadlineMiddleware (timeout : Int) (sched : List Bool) : DeadlineSt :=
  if timeout ≤ 0 then execPlain sched else execSched sched

theorem execPlain_no_deadline (sched : List Bool) :
    ∀ s : DeadlineSt,
      (sched.foldl plainStep s).written.count .deadline504 =
        s.written.count .deadline504 ∧
      (sched.foldl plainStep s).claimed = s.claimed := by
  induction sched with
  | nil => intro s; exact ⟨rfl, rfl⟩
  | cons c rest ih =>
    intro s
    cases c with
    | true =>
      show (rest.foldl plainStep (plainStep s true)).written.count _ = _ ∧
        (rest.foldl plainStep (plainStep s true)).claimed = _
      have h := ih (plainStep s true)
      constructor
      · rw [h.1]
        show (s.written ++ [WriteEvent.handlerByte]).count _ = _
        simp
      · rw [h.2]
        rfl
    | false =>
      show (rest.foldl plainStep s).written.count _ = _ ∧
        (rest.foldl plainStep s).claimed = _
      exact ih s

/-- C10: with a non-positive configured timeout the Deadline middleware is
the identity on handlers — every request runs the inner handler directly,
no deadline race exists, the claim flag is never touched, and no 504
`DEADLINE_EXCEEDED` can be produced by this layer. -/
theorem deadline_disabled_identity (timeout : Int) (sched : List Bool)
    (h : timeout ≤ 0) :
    deadlineMiddleware timeout sched = execPlain sched ∧
      (deadlineMiddleware timeout sched).written.count .deadline504 = 0 ∧
      (deadlineMiddleware timeout sched).claimed = false := by
  have hid : deadlineMiddleware timeout sched = execPlain sched := by
    unfold deadlineMiddleware
    rw [if_pos h]
  refine ⟨hid, ?_, ?_⟩
  · rw [hid]
    exact (execPlain_no_deadline sched initDeadlineSt).1
  · rw [hid]
    exact (execPlain_no_deadline sched initDeadlineSt).2

/-- Witness for C10 at `timeout = 0` and a concrete schedule. -/
theorem deadline_disabled_identity_witness :
    (0 : Int) ≤ 0 ∧
      (deadlineMiddleware 0 [true, false, true] = execPlain [true, false, true] ∧
        (deadlineMiddleware 0 [true, false, true]).written.count .deadline504 = 0 ∧
        (deadlineMiddleware 0 [true, false, true]).claimed = false) :=
  ⟨by decide, deadline_disabled_identity 0 [true, false, true] (by decide)⟩

/-! ## Rate limiter (ratelimit middleware, src/internal/circuitbreaker/timeout.go
route scan at `Limiter.limitsForPath`)

`RouteConfig` keeps only the fields the limiter consults (`PathPrefix`,
rendered `pathPfx` here, and `RateOverride`).  `rate.Limit` /
`RequestsPerSecond` (`float64`) are `Rat`; `BurstSize` (`int`) is
`Int`. -/

structure RateLimitConfig where
  requestsPerSecond : Rat
  burstSize : Int
  deriving Repr, DecidableEq

structure RouteConfig where
  pathPfx : List Char
  rateOverride : Option RateLimitConfig
  deriving Repr, DecidableEq

/-- The running state of the single route scan in `limitsForPath`:
`bestOverride`, `bestLen`, `bestPrefix` (rendered `bestPfx`). -/
structure LimitScan where
  bestOverride : Option RateLimitConfig
  bestLen : Nat
  bestPfx : List Char
  deriving Repr, DecidableEq

/-- Loop body of `Limiter.limitsForPath`: on a boundary match longer than
the best so far, the length and prefix are always updated but the
override only when the route carries one. -/
def limitsScanStep (path : List Char) (st : LimitScan) (route : RouteConfig) :
    LimitScan :=
  if MatchesPrefixBoundary path route.pathPfx = true ∧
      st.bestLen < route.pathPfx.length then
    { bestOverride :=
        match route.rateOverride with
        | some o => some o
        | none => st.bestOverride
      bestLen := route.pathPfx.length
      bestPfx := route.pathPfx }
  else st

def initLimitScan : LimitScan :=
  { bestOverride := none, bestLen := 0, bestPfx := "unknown".toList }

/-- `Limiter.limitsForPath`: returns the applied (rps, burst) and the
matched prefix label. -/
def limitsForPath (globalRate : Rat) (globalBurst : Int)
    (routes : List RouteConfig) (path : List Char) :
    Rat × Int × List Char :=
  let final := routes.foldl (limitsScanStep path) initLimitScan
  match final.bestOverride with
  | some o => (o.requestsPerSecond, o.burstSize, final.bestPfx)
  | none => (globalRate, globalBurst, final.bestPfx)

/-- The limit selection that claim C4 describes, written from the spec's
words: take the longest route whose prefix matches the path with
boundary, use its override if present, otherwise the global limits. -/
def specLongestMatch (routes : List RouteConfig) (path : List Char) :
    Option RouteConfig :=
  routes.foldl
    (fun acc r =>
      if MatchesPrefixBoundary path r.pathPfx = true then
        match acc with
        | none => some r
        | some best =>
          if best.pathPfx.length < r.pathPfx.length then some r else some best
      else acc)
    none

def specLimitsForPath (globalRate : Rat) (globalBurst : Int)
    (routes : List RouteConfig) (path : List Char) : Rat × Int :=
  match specLongestMatch routes path with
  | some r =>
    match r.rateOverride with
    | some o => (o.requestsPerSecond, o.burstSize)
    | none => (globalRate, globalBurst)
  | none => (globalRate, globalBurst)

/-- C4 counterexample: routes `/api` (override rps=2, burst=5) and
`/api/users` (no override), path `/api/users/1`, global (100, 50).  The
longest matching route `/api/users` has no override, so the claim says
the global limits apply; the scan instead keeps the shorter route's
override when `/api` is listed first, and the answer flips when the two
routes are swapped — the chosen limit depends on table order. -/
theorem limitsForPath_shorter_override_leaks :
    (limitsForPath 100 50
      [⟨"/api".toList, some ⟨2, 5⟩⟩, ⟨"/api/users".toList, none⟩]
      "/api/users/1".toList).1 = 2 ∧
    (specLimitsForPath 100 50
      [⟨"/api".toList, some ⟨2, 5⟩⟩, ⟨"/api/users".toList, none⟩]
      "/api/users/1".toList).1 = 100 ∧
    (limitsForPath 100 50
      [⟨"/api/users".toList, none⟩, ⟨"/api".toList, some ⟨2, 5⟩⟩]
      "/api/users/1".toList).1 = 100 := by
  decide

theorem limitsScan_no_update (path : List Char) (routes : List RouteConfig) :
    ∀ st : LimitScan,
      (∀ r ∈ routes, r.pathPfx.length ≤ st.bestLen) →
      routes.foldl (limitsScanStep path) st = st := by
  induction routes with
  | nil => intro st _; rfl
  | cons r rest ih =>
    intro st hall
    show rest.foldl (limitsScanStep path) (limitsScanStep path st r) = st
    have hr : r.pathPfx.length ≤ st.bestLen := hall r (by simp)
    have hstep : limitsScanStep path st r = st := by
      unfold limitsScanStep
      rw [if_neg]
      intro h
      omega
    rw [hstep]
    exact ih st (fun x hx => hall x (by simp [hx]))

theorem matches_imp_len_pos (path pfx : List Char)
    (h : MatchesPrefixBoundary path pfx = true) : 0 < pfx.length := by
  cases pfx with
  | nil => simp [MatchesPrefixBoundary] at h
  | cons c t => simp

/-- C4 amended: when the route table is sorted longest-prefix-first (as
the router sorts it), the rate limiter applies the first matching
route's `rate_override`, which is then the longest match, falling back
to the global limits; on an unsorted table an override of a shorter
route listed earlier can win (`limitsForPath_shorter_override_leaks`). -/
theorem limitsForPath_sorted (globalRate : Rat) (globalBurst : Int)
    (routes : List RouteConfig) (path : List Char)
    (hs : routes.Pairwise (fun a b => b.pathPfx.length ≤ a.pathPfx.length)) :
    limitsForPath globalRate globalBurst routes path =
      match routes.find? (fun r => MatchesPrefixBoundary path r.pathPfx) with
      | some r =>
        match r.rateOverride with
        | some o => (o.requestsPerSecond, o.burstSize, r.pathPfx)
        | none => (globalRate, globalBurst, r.pathPfx)
      | none => (globalRate, globalBurst, "unknown".toList) := by
  induction routes with
  | nil => rfl
  | cons r rest ih =>
    have hpair := (List.pairwise_cons.mp hs).1
    have htail := (List.pairwise_cons.mp hs).2
    by_cases hm : MatchesPrefixBoundary path r.pathPfx = true
    · have hlen : 0 < r.pathPfx.length := matches_imp_len_pos path r.pathPfx hm
      have hstep : limitsScanStep path initLimitScan r =
          { bestOverride :=
              match r.rateOverride with
              | some o => some o
              | none => none
            bestLen := r.pathPfx.length
            bestPfx := r.pathPfx } := by
        unfold limitsScanStep
        rw [if_pos ⟨hm, by simpa [initLimitScan] using hlen⟩]
        rfl
      have hrest : rest.foldl (limitsScanStep path)
          (limitsScanStep path initLimitScan r) =
          limitsScanStep path initLimitScan r := by
        apply limitsScan_no_update
        intro x hx
        rw [hstep]
        exact hpair x hx
      show (match (rest.foldl (limitsScanStep path)
          (limitsScanStep path initLimitScan r)).bestOverride with
        | some o => (o.requestsPerSecond, o.burstSize,
            (rest.foldl (limitsScanStep path)
              (limitsScanStep path initLimitScan r)).bestPfx)
        | none => (globalRate, globalBurst,
            (rest.foldl (limitsScanStep path)
              (limitsScanStep path initLimitScan r)).bestPfx)) = _
      rw [hrest, hstep]
      have hfind : (r :: rest).find?
          (fun rr : RouteConfig => MatchesPrefixBoundary path rr.pathPfx) =
          some r := by
        show (match MatchesPrefixBoundary path r.pathPfx with
          | true => some r
          | false => rest.find?
              (fun rr : RouteConfig => MatchesPrefixBoundary path rr.pathPfx)) =
          some r
        rw [hm]
      rw [hfind]
      cases hro : r.rateOverride with
      | none => simp [hro]
      | some o => simp [hro]
    · have hstep : limitsScanStep path initLimitScan r = initLimitScan := by
        unfold limitsScanStep
        rw [if_neg (fun h => hm h.1)]
      show (match (rest.foldl (limitsScanStep path)
          (limitsScanStep path initLimitScan r)).bestOverride with
        | some o => (o.requestsPerSecond, o.burstSize,
            (rest.foldl (limitsScanStep path)
              (limitsScanStep path initLimitScan r)).bestPfx)
        | none => (globalRate, globalBurst,
            (rest.foldl (limitsScanStep path)
              (limitsScanStep path initLimitScan r)).bestPfx)) = _
      rw [hstep]
      have hmf : MatchesPrefixBoundary path r.pathPfx = false := by
        simpa using hm
      have hfind : (r :: rest).find?
          (fun rr : RouteConfig => MatchesPrefixBoundary path rr.pathPfx) =
          rest.find?
            (fun rr : RouteConfig => MatchesPrefixBoundary path rr.pathPfx) := by
        show (match MatchesPrefixBoundary path r.pathPfx with
          | true => some r
          | false => rest.find?
              (fun rr : RouteConfig => MatchesPrefixBoundary path rr.pathPfx)) =
          rest.find?
            (fun rr : RouteConfig => MatchesPrefixBoundary path rr.pathPfx)
        rw [hmf]
      rw [hfind]
      exact ih htail

/-- Witness for the amended C4 on a sorted two-route table. -/
theorem limitsForPath_sorted_witness :
    ([⟨"/api/users".toList, (none : Option RateLimitConfig)⟩,
        ⟨"/api".toList, some ⟨2, 5⟩⟩] :
      List RouteConfig).Pairwise
        (fun a b => b.pathPfx.length ≤ a.pathPfx.length) ∧
    limitsForPath 100 50
        [⟨"/api/users".toList, none⟩, ⟨"/api".toList, some ⟨2, 5⟩⟩]
        "/api/users/1".toList =
      match ([⟨"/api/users".toList, none⟩,
          ⟨"/api".toList, some ⟨2, 5⟩⟩] : List RouteConfig).find?
          (fun r => MatchesPrefixBoundary "/api/users/1".toList r.pathPfx) with
      | some r =>
        match r.rateOverride with
        | some o => (o.requestsPerSecond, o.burstSize, r.pathPfx)
        | none => ((100 : Rat), (50 : Int), r.pathPfx)
      | none => ((100 : Rat), (50 : Int), "unknown".toList) :=
  ⟨by decide, limitsForPath_sorted 100 50 _ _ (by decide)⟩

/-! ## Client-IP resolution (`Limiter.clientIP` / `Limiter.isTrusted`)

A trusted CIDR is modelled as the predicate `cidr.Contains ∘ net.ParseIP`
(false on an unparsable address, as `isTrusted` returns false when
`ParseIP` fails).  The peer is the host part of `RemoteAddr` after
`SplitHostPort`.  `strings.Split(xff, ",")` is `List.splitOn`;
`strings.TrimSpace` trims ASCII whitespace from both ends. -/

def isSpaceChar (c : Char) : Bool :=
  c = ' ' ∨ c = '\t' ∨ c = '\n' ∨ c = '\r'

def trimSpace (l : List Char) : List Char :=
  ((l.dropWhile isSpaceChar).reverse.dropWhile isSpaceChar).reverse

def isTrustedIP (cidrs : List (List Char → Bool)) (ip : List Char) : Bool :=
  cidrs.any (fun c => c ip)

/-- The right-to-left walk of `clientIP` over the already-reversed split
parts: skip entries that trim to empty or are trusted, return the first
remaining one. -/
def firstNonTrustedFromRight (cidrs : List (List Char → Bool)) :
    List (List Char) → Option (List Char)
  | [] => none
  | p :: rest =>
    if trimSpace p ≠ [] ∧ ¬ isTrustedIP cidrs (trimSpace p) = true then
      some (trimSpace p)
    else firstNonTrustedFromRight cidrs rest

/-- `Limiter.clientIP`: `xff = []` models an absent `X-Forwarded-For`
header (`Header.Get` returns the empty string). -/
def clientIP (cidrs : List (List Char → Bool)) (peerIP xff : List Char) :
    List Char :=
  if 0 < cidrs.length ∧ isTrustedIP cidrs peerIP = true ∧ xff ≠ [] then
    match firstNonTrustedFromRight cidrs ((xff.splitOn ',').reverse) with
    | some ip => ip
    | none => peerIP
  else peerIP

/-- The `X-Forwarded-For` entries of a header value: the comma-separated
parts, trimmed, with empties dropped. -/
def xffEntries (xff : List Char) : List (List Char) :=
  ((xff.splitOn ',').map trimSpace).filter (fun e => ! e.isEmpty)

theorem firstNonTrustedFromRight_eq (cidrs : List (List Char → Bool))
    (l : List (List Char)) :
    firstNonTrustedFromRight cidrs l =
      ((l.map trimSpace).filter (fun e => ! e.isEmpty)).find?
        (fun e => ! isTrustedIP cidrs e) := by
  induction l with
  | nil => rfl
  | cons p rest ih =>
    by_cases hemp : trimSpace p = []
    · have h1 : (trimSpace p).isEmpty = true := by simp [hemp]
      unfold firstNonTrustedFromRight
      rw [if_neg (fun hcon => hcon.1 hemp)]
      rw [ih]
      show _ = (((p :: rest).map trimSpace).filter (fun e => ! e.isEmpty)).find? _
      rw [List.map_cons, List.filter_cons]
      rw [if_neg (by simp [h1])]
    · have h1 : (! (trimSpace p).isEmpty) = true := by
        simp [List.isEmpty_iff, hemp]
      show _ = (((p :: rest).map trimSpace).filter (fun e => ! e.isEmpty)).find? _
      rw [List.map_cons, List.filter_cons, if_pos h1]
      by_cases htr : isTrustedIP cidrs (trimSpace p) = true
      · unfold firstNonTrustedFromRight
        rw [if_neg (fun hcon => hcon.2 htr)]
        rw [ih]
        have hfalse : (! isTrustedIP cidrs (trimSpace p)) = false := by
          simp [htr]
        show _ = (match (! isTrustedIP cidrs (trimSpace p)) with
          | true => some (trimSpace p)
          | false => (((rest.map trimSpace).filter
              (fun e => ! e.isEmpty)).find? (fun e => ! isTrustedIP cidrs e)))
        rw [hfalse]
      · unfold firstNonTrustedFromRight
        rw [if_pos ⟨hemp, htr⟩]
        have htrue : (! isTrustedIP cidrs (trimSpace p)) = true := by
          simp [htr]
        show _ = (match (! isTrustedIP cidrs (trimSpace p)) with
          | true => some (trimSpace p)
          | false => (((rest.map trimSpace).filter
              (fun e => ! e.isEmpty)).find? (fun e => ! isTrustedIP cidrs e)))
        rw [htrue]

/-- C9: the resolved client IP is the connection peer when the trusted
list is empty or the peer is not inside any trusted CIDR; otherwise it
is the rightmost `X-Forwarded-For` entry not inside a trusted CIDR,
falling back to the peer when the header is absent or every entry is
trusted. -/
theorem clientIP_resolution (cidrs : List (List Char → Bool))
    (peerIP xff : List Char) :
    clientIP cidrs peerIP xff =
      if 0 < cidrs.length ∧ isTrustedIP cidrs peerIP = true then
        match (xffEntries xff).reverse.find?
            (fun e => ! isTrustedIP cidrs e) with
        | some e => e
        | none => peerIP
      else peerIP := by
  by_cases h12 : 0 < cidrs.length ∧ isTrustedIP cidrs peerIP = true
  · rw [if_pos h12]
    by_cases hx : xff = ([] : List Char)
    · have hlhs : clientIP cidrs peerIP xff = peerIP := by
        unfold clientIP
        rw [if_neg (fun hcon => hcon.2.2 hx)]
      rw [hlhs, hx]
      have hempty : (xffEntries ([] : List Char)).reverse.find?
          (fun e => ! isTrustedIP cidrs e) = none := by
        show (xffEntries ([] : List Char)).reverse.find? _ = none
        have : xffEntries ([] : List Char) = [] := by decide
        rw [this]
        rfl
      rw [hempty]
    · unfold clientIP
      rw [if_pos ⟨h12.1, h12.2, hx⟩]
      rw [firstNonTrustedFromRight_eq]
      have hrev : ((xff.splitOn ',').reverse.map trimSpace).filter
          (fun e => ! e.isEmpty) = (xffEntries xff).reverse := by
        unfold xffEntries
        rw [List.map_reverse, List.filter_reverse]
      rw [hrev]
  · rw [if_neg h12]
    unfold clientIP
    rw [if_neg (fun hcon => h12 ⟨hcon.1, hcon.2.1⟩)]

/-! ## Rate-limit rejection response (`Limiter.Middleware`) and
gateway error bodies (claims C7 and C8)

The 429 branch sets `Retry-After` to
`strconv.FormatFloat(1.0/rateLimit, 'f', 0, 64)`: the value rounded to
zero decimal places, i.e. to the nearest integer with ties to even.
`formatFloat0` models that rounding on `Rat`; for every input used below
the `float64` intermediate lies strictly on the same side of a rounding
boundary as the exact rational, so the branch taken agrees with Go.
Bodies are modelled by their JSON key sets: the 429 body is the
pre-serialized `errBodyTooManyRequests` literal with keys
`error`/`message`; `writeAuthError` (auth middleware) and
`WriteBodyLimitError` (src/internal/middleware/bodylimit.go) marshal
maps with the same two keys. -/

def formatFloat0 (q : Rat) : Int :=
  if q - (⌊q⌋ : Rat) < 1 / 2 then ⌊q⌋
  else if 1 / 2 < q - (⌊q⌋ : Rat) then ⌊q⌋ + 1
  else if Even ⌊q⌋ then ⌊q⌋ else ⌊q⌋ + 1

/-- The response produced by the rate limiter's rejection branch. -/
structure RateLimitReject where
  status : Nat
  contentType : List Char
  retryAfter : Int
  bodyKeys : List (List Char)
  deriving Repr, DecidableEq

def rateLimit429 (rps : Rat) : RateLimitReject :=
  { status := 429
    contentType := "application/json".toList
    retryAfter := formatFloat0 (1 / rps)
    bodyKeys := ["error".toList, "message".toList] }

/-- C7 counterexample: at `rps = 3` the code formats `1/3` with zero
decimals, producing `Retry-After: 0`, while the claim's `ceil(1/rps)`
is 1.  (In Go the intermediate `1.0/3.0` is a `float64` below `0.5`,
so it takes the same rounding branch as the exact `1/3` here.) -/
theorem rateLimit429_retry_after_not_ceil :
    (rateLimit429 3).retryAfter = 0 ∧ ⌈(1 : Rat) / 3⌉ = 1 ∧
      (rateLimit429 3).retryAfter ≠ ⌈(1 : Rat) / 3⌉ := by
  have hra : (rateLimit429 3).retryAfter = 0 := by
    show formatFloat0 (1 / 3) = 0
    unfold formatFloat0
    norm_num
  have hceil : ⌈(1 : Rat) / 3⌉ = 1 := by
    rw [Int.ceil_eq_iff]
    norm_num
  refine ⟨hra, hceil, ?_⟩
  rw [hra, hceil]
  decide

theorem formatFloat0_nearest (q : Rat) :
    |((formatFloat0 q : Int) : Rat) - q| ≤ 1 / 2 := by
  have h1 : (⌊q⌋ : Rat) ≤ q := Int.floor_le q
  have h2 : q < (⌊q⌋ : Rat) + 1 := Int.lt_floor_add_one q
  unfold formatFloat0
  split
  · rw [abs_le]
    constructor <;> linarith
  · split
    · rw [abs_le]
      constructor <;> push_cast <;> linarith
    · split <;> (rw [abs_le]; constructor <;> push_cast <;> linarith)

/-- C7 amended: a rate-limit rejection is a 429 whose `Retry-After`
value is `1/rps` rounded to the nearest integer (ties to even) — within
half a second of `1/rps` — rather than `ceil(1/rps)`. -/
theorem rateLimit429_retry_after_nearest (rps : Rat) (_h : 0 < rps) :
    (rateLimit429 rps).status = 429 ∧
      |(((rateLimit429 rps).retryAfter : Int) : Rat) - 1 / rps| ≤ 1 / 2 := by
  exact ⟨rfl, formatFloat0_nearest (1 / rps)⟩

/-- Witness for the amended C7 at `rps = 3`. -/
theorem rateLimit429_retry_after_nearest_witness :
    (0 : Rat) < 3 ∧
      ((rateLimit429 3).status = 429 ∧
        |(((rateLimit429 3).retryAfter : Int) : Rat) - 1 / 3| ≤ 1 / 2) :=
  ⟨by norm_num, rateLimit429_retry_after_nearest 3 (by norm_num)⟩

/-- A gateway-generated error response reduced to the fields claim C8
constrains: status, `Content-Type`, and the set of JSON keys in the
body. -/
structure GatewayErrorBody where
  status : Nat
  contentType : List Char
  bodyKeys : List (List Char)
  deriving Repr, DecidableEq

/-- `writeAuthError` (auth middleware): both the pre-serialized
missing-token body and the `json.NewEncoder` map carry exactly the keys
`error` and `message`. -/
def writeAuthErrorBody (status : Nat) : GatewayErrorBody :=
  { status := status
    contentType := "application/json".toList
    bodyKeys := ["error".toList, "message".toList] }

/-- `WriteBodyLimitError` (src/internal/middleware/bodylimit.go). -/
def writeBodyLimitErrorBody : GatewayErrorBody :=
  { status := 413
    contentType := "application/json".toList
    bodyKeys := ["error".toList, "message".toList] }

/-- C8 evaluated on the code: the rate limiter's 429, the auth
middleware's 401/403 and the body-limit 413 all set
`Content-Type: application/json`, but none of their bodies contains an
`error_code` field — contradicting the spec's body shape and the
repository's own integration tests, which assert
`error_code = GATEWAY_RATE_LIMIT_EXCEEDED` on 429 and
`GATEWAY_AUTH_MISSING_TOKEN` on 401. -/
theorem gateway_error_bodies_lack_error_code :
    (rateLimit429 1).status = 429 ∧
      (rateLimit429 1).contentType = "application/json".toList ∧
      "error_code".toList ∉ (rateLimit429 1).bodyKeys ∧
      (writeAuthErrorBody 401).contentType = "application/json".toList ∧
      "error_code".toList ∉ (writeAuthErrorBody 401).bodyKeys ∧
      "error_code".toList ∉ (writeAuthErrorBody 403).bodyKeys ∧
      writeBodyLimitErrorBody.status = 413 ∧
      "error_code".toList ∉ writeBodyLimitErrorBody.bodyKeys := by
  refine ⟨rfl, rfl, by decide, rfl, by decide, by decide, rfl, by decide⟩

end Gateway
